import Mathlib

/-
Verification of the bank-statement extraction pipeline
(src/exp_parser.py and src/app.py) via a shallow embedding.

Python strings are modelled as lists of characters (Str).  External
collaborators (the dateutil generic parser, spaCy NER entities, regex
findall results over free text) enter as explicit oracle parameters;
everything the repository itself computes is translated directly.
-/

set_option maxRecDepth 4000

abbrev Str := List Char

/-- Python str.strip() with no argument: drop whitespace from both ends. -/
def pyStrip (s : Str) : Str :=
  ((s.dropWhile Char.isWhitespace).reverse.dropWhile Char.isWhitespace).reverse

/-- Python str.upper() (ASCII fragment, which covers all synonyms used). -/
def strUpper (s : Str) : Str := s.map Char.toUpper

/-- Python str.lower() (ASCII fragment). -/
def strLower (s : Str) : Str := s.map Char.toLower

/-- Python substring test: needle in hay. -/
def strIn (needle hay : Str) : Bool :=
  match hay with
  | [] => needle.isEmpty
  | _ :: t => needle.isPrefixOf hay || strIn needle t

/- ===== Amount normalizer: src/exp_parser.py lines 52-59 ===== -/

/-- Model of re.sub(pattern, empty-replacement, s) for a single-character
class: delete every character satisfying p, keep the rest in order. -/
def reSubDel (p : Char → Bool) : Str → Str
  | [] => []
  | c :: cs => if p c then reSubDel p cs else c :: reSubDel p cs

/-- Characters kept by the class complementing the deleted class in
re.sub of non-digit, non-dot, non-comma characters. -/
def amountKeep (c : Char) : Bool := c.isDigit || c = '.' || c = ','

/-- parse_amount from src/exp_parser.py: remove any character that is not
a digit, a dot or a comma. -/
def parse_amount (amount_str : Str) : Str :=
  reSubDel (fun c => !(amountKeep c)) amount_str

/- ===== Header mapper: src/exp_parser.py lines 28-34 and 61-71 ===== -/

inductive CanonField where
  | date
  | description
  | debit
  | credit
  | balance
deriving DecidableEq

/-- Iteration order of the HEADER_SYNONYMS dict (insertion order). -/
def fieldOrder : List CanonField :=
  [CanonField.date, CanonField.description, CanonField.debit, CanonField.credit, CanonField.balance]

/-- HEADER_SYNONYMS from src/exp_parser.py lines 28-34. -/
def HEADER_SYNONYMS : CanonField → List Str
  | CanonField.date =>
      ["DATE".toList, "TRANSACTION DATE".toList, "VALUE DATE".toList,
       "DATE OF TRANSACTION".toList]
  | CanonField.description =>
      ["DESCRIPTION".toList, "DETAILS".toList, "TRANSACTION DETAILS".toList,
       "PARTICULARS".toList]
  | CanonField.debit => ["DEBIT".toList, "WITHDRAWAL".toList, "DR".toList]
  | CanonField.credit => ["CREDIT".toList, "DEPOSIT".toList, "CR".toList]
  | CanonField.balance =>
      ["BALANCE".toList, "AVAILABLE BALANCE".toList, "CLOSING BALANCE".toList]

/-- Test of the inner any(syn in header_clean for syn in synonyms). -/
def synMatches (cleaned : Str) (f : CanonField) : Bool :=
  (HEADER_SYNONYMS f).any (fun syn => strIn syn cleaned)

/-- First field (in dict iteration order) whose synonym list matches the
cleaned cell text; mirrors the inner for-loop with its break. -/
def headerField (cleaned : Str) : Option CanonField :=
  fieldOrder.find? (fun f => synMatches cleaned f)

/-- Cleaning applied to each header cell: header.strip().upper(). -/
def cleanHeader (h : Str) : Str := strUpper (pyStrip h)

/-- State of the mapped dict, one slot per canonical field. -/
structure Mapping where
  dateIdx : Option Nat
  descriptionIdx : Option Nat
  debitIdx : Option Nat
  creditIdx : Option Nat
  balanceIdx : Option Nat
deriving DecidableEq

def Mapping.get (m : Mapping) : CanonField → Option Nat
  | CanonField.date => m.dateIdx
  | CanonField.description => m.descriptionIdx
  | CanonField.debit => m.debitIdx
  | CanonField.credit => m.creditIdx
  | CanonField.balance => m.balanceIdx

/-- Dict assignment mapped[key] = idx. -/
def Mapping.set (m : Mapping) : CanonField → Nat → Mapping
  | CanonField.date, i => { m with dateIdx := some i }
  | CanonField.description, i => { m with descriptionIdx := some i }
  | CanonField.debit, i => { m with debitIdx := some i }
  | CanonField.credit, i => { m with creditIdx := some i }
  | CanonField.balance, i => { m with balanceIdx := some i }

def emptyMapping : Mapping := ⟨none, none, none, none, none⟩

/-- Loop body of map_headers over enumerate(headers). -/
def map_headers_go (idx : Nat) (m : Mapping) : List Str → Mapping
  | [] => m
  | h :: t =>
    match headerField (cleanHeader h) with
    | some f => map_headers_go (idx + 1) (m.set f idx) t
    | none => map_headers_go (idx + 1) m t

/-- map_headers from src/exp_parser.py lines 61-71. -/
def map_headers (headers : List Str) : Mapping :=
  map_headers_go 0 emptyMapping headers

/- ===== Deduplicator: src/exp_parser.py lines 242-248 ===== -/

structure Transaction where
  DATE : Str
  DESCRIPTION : Str
  DEBIT : Str
  CREDIT : Str
  BALANCE : Str
deriving DecidableEq

abbrev TxKey := Str × Str × Str × Str × Str

/-- Deduplication key tuple from src/exp_parser.py line 245. -/
def txKey (t : Transaction) : TxKey :=
  (t.DATE, t.DESCRIPTION, t.DEBIT, t.CREDIT, t.BALANCE)

/-- Loop of process_pdf lines 243-247: an insertion-ordered dict keyed by
txKey, first occurrence kept; seen is the set of keys already present. -/
def dedupGo (seen : List TxKey) : List Transaction → List Transaction
  | [] => []
  | t :: ts =>
    if txKey t ∈ seen then dedupGo seen ts
    else t :: dedupGo (txKey t :: seen) ts

/-- Deduplication step of process_pdf: list(unique_transactions.values()). -/
def dedup_transactions (l : List Transaction) : List Transaction :=
  dedupGo [] l

/- ===== Lemmas about the deduplicator ===== -/

theorem mem_dedupGo {t : Transaction} :
    ∀ (l : List Transaction) (seen : List TxKey),
      t ∈ dedupGo seen l → t ∈ l ∧ txKey t ∉ seen := by
  intro l
  induction l with
  | nil => intro seen h; simp [dedupGo] at h
  | cons a as ih =>
    intro seen h
    simp only [dedupGo] at h
    by_cases hk : txKey a ∈ seen
    · simp [hk] at h
      rcases ih seen h with ⟨h1, h2⟩
      exact ⟨List.mem_cons_of_mem _ h1, h2⟩
    · simp [hk] at h
      rcases h with h | h
      · subst h; exact ⟨List.mem_cons_self _ _, hk⟩
      · rcases ih (txKey a :: seen) h with ⟨h1, h2⟩
        refine ⟨List.mem_cons_of_mem _ h1, fun hc => h2 ?_⟩
        exact List.mem_cons_of_mem _ hc

theorem dedupGo_keys_nodup :
    ∀ (l : List Transaction) (seen : List TxKey),
      ((dedupGo seen l).map txKey).Nodup := by
  intro l
  induction l with
  | nil => intro seen; simp [dedupGo]
  | cons a as ih =>
    intro seen
    simp only [dedupGo]
    by_cases hk : txKey a ∈ seen
    · simp [hk]; exact ih seen
    · simp only [hk, if_false, List.map_cons, List.nodup_cons]
      refine ⟨fun hc => ?_, ih (txKey a :: seen)⟩
      rcases List.mem_map.mp hc with ⟨t, ht, hkey⟩
      have := (mem_dedupGo as (txKey a :: seen) ht).2
      exact this (hkey ▸ List.mem_cons_self _ _)

theorem dedupGo_eq_self :
    ∀ (l : List Transaction) (seen : List TxKey),
      (∀ t ∈ l, txKey t ∉ seen) → (l.map txKey).Nodup →
      dedupGo seen l = l := by
  intro l
  induction l with
  | nil => intro seen _ _; rfl
  | cons a as ih =>
    intro seen hdisj hnd
    simp only [List.map_cons, List.nodup_cons] at hnd
    have hka : txKey a ∉ seen := hdisj a (List.mem_cons_self _ _)
    simp only [dedupGo, hka, if_false]
    congr 1
    refine ih (txKey a :: seen) (fun t ht hc => ?_) hnd.2
    rcases List.mem_cons.mp hc with hc | hc
    · exact hnd.1 (hc ▸ List.mem_map_of_mem txKey ht)
    · exact hdisj t (List.mem_cons_of_mem _ ht) hc

/-- Claim C7: the deduplicator (keyed on the (date, description, debit,
credit, balance) tuple, first occurrence kept) is idempotent: applying it
to its own output returns that output unchanged. -/
theorem c7_dedup_idempotent (l : List Transaction) :
    dedup_transactions (dedup_transactions l) = dedup_transactions l := by
  unfold dedup_transactions
  refine dedupGo_eq_self _ _ (fun t _ hc => ?_) (dedupGo_keys_nodup l [])
  simp at hc

/- ===== Quick claim theorems on the leaf normalizer and mapper ===== -/

/-- Claim C9: parse_amount returns exactly the subsequence of characters
of its input that are digits, dots or commas, in the original order, and
returns the empty string on empty input. -/
theorem c9_parse_amount_is_filter :
    (∀ s : Str, parse_amount s = s.filter amountKeep) ∧
    parse_amount [] = [] := by
  constructor
  · intro s
    induction s with
    | nil => rfl
    | cons c cs ih =>
      simp only [parse_amount, reSubDel, List.filter_cons] at *
      by_cases h : amountKeep c <;> simp [h, ih]
  · rfl

/-- Claim C2 counterexample: in the header row consisting of the cells
DATE and VALUE DATE, both cells match the canonical field date, yet
map_headers assigns the date field column index 1, the last matching
cell, not index 0, the first (leftmost) matching cell. -/
theorem c2_counterexample :
    headerField (cleanHeader "DATE".toList) = some CanonField.date ∧
    headerField (cleanHeader "VALUE DATE".toList) = some CanonField.date ∧
    (map_headers ["DATE".toList, "VALUE DATE".toList]).get CanonField.date
      = some 1 := by
  refine ⟨?_, ?_, ?_⟩ <;> decide

/- ===== Date model: src/app.py lines 9-30 and src/exp_parser.py 45-50 ===== -/

structure PDate where
  day : Nat
  month : Nat
  year : Nat
deriving DecidableEq

def leapYear (y : Nat) : Bool :=
  decide (y % 4 = 0 ∧ (y % 100 ≠ 0 ∨ y % 400 = 0))

def daysInMonth (m y : Nat) : Nat :=
  if m = 2 then (if leapYear y then 29 else 28)
  else if m = 4 ∨ m = 6 ∨ m = 9 ∨ m = 11 then 30
  else 31

/-- Invariants the datetime.date constructor enforces (MINYEAR 1,
MAXYEAR 9999, month 1..12, day 1..days-in-month). -/
def ValidPD (d : PDate) : Prop :=
  1 ≤ d.month ∧ d.month ≤ 12 ∧ 1 ≤ d.day ∧ d.day ≤ daysInMonth d.month d.year ∧
  1 ≤ d.year ∧ d.year ≤ 9999

instance (d : PDate) : Decidable (ValidPD d) := by
  unfold ValidPD; infer_instance

/-- Zero-padded two-digit decimal rendering (strftime directives for day
and month). -/
def pad2 (n : Nat) : Str := [Nat.digitChar (n / 10), Nat.digitChar (n % 10)]

/-- Zero-padded four-digit decimal rendering (strftime year with
century). -/
def pad4 (n : Nat) : Str :=
  [Nat.digitChar (n / 1000), Nat.digitChar (n / 100 % 10),
   Nat.digitChar (n / 10 % 10), Nat.digitChar (n % 10)]

/-- strftime of a date with the output format used by both normalizers:
day dash month dash four-digit year. -/
def fmtPD (d : PDate) : Str :=
  pad2 d.day ++ '-' :: (pad2 d.month ++ '-' :: pad4 d.year)

def digitVal (c : Char) : Nat := c.toNat - '0'.toNat

/-- CPython strptime day directive, alternation order of its regex:
thirty or thirty-one, then two digits starting 1 or 2, then zero plus a
nonzero digit, then one nonzero digit, then space plus nonzero digit.
Each candidate pairs the parsed value with the remaining input, listed
in backtracking priority order. -/
def matchDay : Str → List (Nat × Str)
  | [] => []
  | [c] => if '1' ≤ c ∧ c ≤ '9' then [(digitVal c, [])] else []
  | c1 :: c2 :: rest =>
    (if c1 = '3' ∧ (c2 = '0' ∨ c2 = '1') then [(30 + digitVal c2, rest)] else []) ++
    (if (c1 = '1' ∨ c1 = '2') ∧ c2.isDigit then
        [(10 * digitVal c1 + digitVal c2, rest)] else []) ++
    (if c1 = '0' ∧ ('1' ≤ c2 ∧ c2 ≤ '9') then [(digitVal c2, rest)] else []) ++
    (if '1' ≤ c1 ∧ c1 ≤ '9' then [(digitVal c1, c2 :: rest)] else []) ++
    (if c1 = ' ' ∧ ('1' ≤ c2 ∧ c2 ≤ '9') then [(digitVal c2, rest)] else [])

/-- CPython strptime numeric month directive, alternation order: ten to
twelve, then zero plus nonzero digit, then one nonzero digit. -/
def matchMonthNum : Str → List (Nat × Str)
  | [] => []
  | [c] => if '1' ≤ c ∧ c ≤ '9' then [(digitVal c, [])] else []
  | c1 :: c2 :: rest =>
    (if c1 = '1' ∧ ('0' ≤ c2 ∧ c2 ≤ '2') then [(10 + digitVal c2, rest)] else []) ++
    (if c1 = '0' ∧ ('1' ≤ c2 ∧ c2 ≤ '9') then [(digitVal c2, rest)] else []) ++
    (if '1' ≤ c1 ∧ c1 ≤ '9' then [(digitVal c1, c2 :: rest)] else [])

/-- Abbreviated month names of the C or English locale, lowercased. -/
def monthAbbrevs : List Str :=
  ["jan".toList, "feb".toList, "mar".toList, "apr".toList, "may".toList,
   "jun".toList, "jul".toList, "aug".toList, "sep".toList, "oct".toList,
   "nov".toList, "dec".toList]

/-- CPython strptime abbreviated-month directive: a case-insensitive
three-letter month name. -/
def matchMonthAbbr : Str → List (Nat × Str)
  | c1 :: c2 :: c3 :: rest =>
    match monthAbbrevs.findIdx?
        (fun a => a = [c1.toLower, c2.toLower, c3.toLower]) with
    | some i => [(i + 1, rest)]
    | none => []
  | _ => []

/-- Literal character of the format string. -/
def matchLit (c : Char) : Str → List Str
  | [] => []
  | x :: rest => if x = c then [rest] else []

/-- Exactly four digits (strptime year-with-century directive). -/
def matchYear4 : Str → List (Nat × Str)
  | a :: b :: c :: d :: rest =>
    if a.isDigit ∧ b.isDigit ∧ c.isDigit ∧ d.isDigit then
      [(digitVal a * 1000 + digitVal b * 100 + digitVal c * 10 + digitVal d,
        rest)]
    else []
  | _ => []

/-- Exactly two digits (strptime two-digit-year directive). -/
def matchYear2 : Str → List (Nat × Str)
  | a :: b :: rest =>
    if a.isDigit ∧ b.isDigit then [(digitVal a * 10 + digitVal b, rest)]
    else []
  | _ => []

/-- Shape of one entry of possible_formats in src/app.py lines 16-21:
the separator character, whether the month is alphabetic, and whether
the year has two digits. -/
structure Fmt where
  sep : Char
  alphaMonth : Bool
  twoDigitYear : Bool

/-- possible_formats from src/app.py lines 16-21, in order. -/
def possible_formats : List Fmt :=
  [⟨'/', false, false⟩, ⟨'-', false, false⟩,
   ⟨'/', false, true⟩, ⟨'-', false, true⟩,
   ⟨'-', true, true⟩, ⟨'-', true, false⟩]

/-- First success of g over the elements of l, in order. -/
def firstSome {α β : Type} (l : List α) (g : α → Option β) : Option β :=
  match l with
  | [] => none
  | a :: as =>
    match g a with
    | some b => some b
    | none => firstSome as g

def matchMonth (f : Fmt) (s : Str) : List (Nat × Str) :=
  if f.alphaMonth then matchMonthAbbr s else matchMonthNum s

def matchYear (f : Fmt) (s : Str) : List (Nat × Str) :=
  if f.twoDigitYear then matchYear2 s else matchYear4 s

/-- Backtracking match of the whole format regex against a prefix of s,
returning the first match in regex backtracking order together with the
unconsumed remainder, as re.match does. -/
def matchFmt (f : Fmt) (s : Str) : Option (Nat × Nat × Nat × Str) :=
  firstSome (matchDay s) (fun dc =>
    firstSome (matchLit f.sep dc.2) (fun r2 =>
      firstSome (matchMonth f r2) (fun mc =>
        firstSome (matchLit f.sep mc.2) (fun r4 =>
          firstSome (matchYear f r4) (fun yc =>
            some (dc.1, mc.1, yc.1, yc.2))))))

/-- CPython mapping of a two-digit year onto 1969 to 2068. -/
def mapYear2 (y : Nat) : Nat := if y ≤ 68 then 2000 + y else 1900 + y

/-- Validity check done by the datetime constructor after the regex
match. -/
def checkDate (d m y : Nat) : Option PDate :=
  if 1 ≤ m ∧ m ≤ 12 ∧ 1 ≤ d ∧ d ≤ daysInMonth m y ∧ 1 ≤ y ∧ y ≤ 9999
  then some ⟨d, m, y⟩ else none

/-- datetime.datetime.strptime restricted to the six formats of
src/app.py: the regex must consume the whole string, then the date is
constructed, which validates it. -/
def strptime (f : Fmt) (s : Str) : Option PDate :=
  match matchFmt f s with
  | none => none
  | some (d, m, y, rest) =>
    if rest = [] then
      checkDate d m (if f.twoDigitYear then mapYear2 y else y)
    else none

/-- Loop of convert_date_to_d_mm_yyyy over possible_formats: first
format that parses wins. -/
def strptimeFirst (s : Str) : Option PDate :=
  firstSome possible_formats (fun f => strptime f s)

/-- convert_date_to_d_mm_yyyy from src/app.py lines 9-30: strip, try the
formats in order and reformat on success, otherwise return the
(stripped) original string. -/
def convert_date_to_d_mm_yyyy (date_str : Str) : Str :=
  match strptimeFirst (pyStrip date_str) with
  | some d => fmtPD d
  | none => pyStrip date_str

abbrev VDate := {d : PDate // ValidPD d}

/-- Behaviour of the external dateutil generic parser with dayfirst set:
an arbitrary map from strings to an optional valid date. -/
abbrev DateOracle := Str → Option VDate

/-- parse_date from src/exp_parser.py lines 45-50: delegate to the
dateutil parser, reformat a success, turn a failure into none. -/
def parse_date (oracle : DateOracle) (date_str : Str) : Option Str :=
  (oracle date_str).map (fun d => fmtPD d.1)

/-- Syntactic check that a string has the canonical shape: two digits,
dash, two digits, dash, four digits. -/
def isCanonicalDate (s : Str) : Bool :=
  match s with
  | [a, b, s1, c, d, s2, e, f, g, h] =>
    a.isDigit && b.isDigit && (s1 == '-') && c.isDigit && d.isDigit &&
    (s2 == '-') && e.isDigit && f.isDigit && g.isDigit && h.isDigit
  | _ => false

example : convert_date_to_d_mm_yyyy "01/02/2022".toList = "01-02-2022".toList := by decide
example : convert_date_to_d_mm_yyyy " 1-SEP-22 ".toList = "01-09-2022".toList := by decide
example : convert_date_to_d_mm_yyyy "01-SEP-2022".toList = "01-09-2022".toList := by decide
example : convert_date_to_d_mm_yyyy "notadate".toList = "notadate".toList := by decide
example : convert_date_to_d_mm_yyyy "31/04/2022".toList = "31/04/2022".toList := by decide
example : convert_date_to_d_mm_yyyy "29/02/2020".toList = "29-02-2020".toList := by decide
example : convert_date_to_d_mm_yyyy "29/02/2021".toList = "29/02/2021".toList := by decide
example : convert_date_to_d_mm_yyyy "01-02-69".toList = "01-02-1969".toList := by decide
example : convert_date_to_d_mm_yyyy "01-02-68".toList = "01-02-2068".toList := by decide
example : convert_date_to_d_mm_yyyy "1/2/2022".toList = "01-02-2022".toList := by decide

/- ===== Lemmas about the date model ===== -/

theorem digitChar_isDigit : ∀ n < 10, (Nat.digitChar n).isDigit = true := by
  decide

theorem digitChar_not_ws : ∀ n < 10, (Nat.digitChar n).isWhitespace = false := by
  decide

theorem digitVal_digitChar : ∀ n < 10, digitVal (Nat.digitChar n) = n := by
  decide

theorem firstSome_eq_some {α β : Type} {l : List α} {g : α → Option β} {b : β}
    (h : firstSome l g = some b) : ∃ a ∈ l, g a = some b := by
  induction l with
  | nil => simp [firstSome] at h
  | cons x xs ih =>
    rw [firstSome] at h
    cases hx : g x with
    | some v =>
      rw [hx] at h
      exact ⟨x, List.mem_cons_self _ _, hx ▸ h⟩
    | none =>
      rw [hx] at h
      rcases ih h with ⟨a, ha, hg⟩
      exact ⟨a, List.mem_cons_of_mem _ ha, hg⟩

theorem checkDate_valid {d m y : Nat} {t : PDate}
    (h : checkDate d m y = some t) : ValidPD t := by
  unfold checkDate at h
  split at h
  case isTrue hc =>
    cases h
    simpa [ValidPD] using hc
  case isFalse => cases h

theorem strptime_valid {f : Fmt} {s : Str} {t : PDate}
    (h : strptime f s = some t) : ValidPD t := by
  unfold strptime at h
  split at h
  · cases h
  case _ d m y rest _ =>
    split at h
    · exact checkDate_valid h
    · cases h

theorem strptimeFirst_valid {s : Str} {t : PDate}
    (h : strptimeFirst s = some t) : ValidPD t := by
  rcases firstSome_eq_some h with ⟨f, _, hf⟩
  exact strptime_valid hf

theorem isCanonicalDate_fmtPD (t : PDate) (h : ValidPD t) :
    isCanonicalDate (fmtPD t) = true := by
  obtain ⟨hm1, hm2, hd1, hd2, hy1, hy2⟩ := h
  have hdm : t.day ≤ 31 := by
    have : daysInMonth t.month t.year ≤ 31 := by
      unfold daysInMonth
      split
      · split <;> omega
      · split <;> omega
    omega
  show isCanonicalDate
      [Nat.digitChar (t.day / 10), Nat.digitChar (t.day % 10), '-',
       Nat.digitChar (t.month / 10), Nat.digitChar (t.month % 10), '-',
       Nat.digitChar (t.year / 1000), Nat.digitChar (t.year / 100 % 10),
       Nat.digitChar (t.year / 10 % 10), Nat.digitChar (t.year % 10)] = true
  unfold isCanonicalDate
  simp only [Bool.and_eq_true, beq_self_eq_true, and_true, true_and]
  repeat' constructor
  all_goals exact digitChar_isDigit _ (by omega)

/-- Claim C1 counterexample: on an input no supported format matches,
convert_date_to_d_mm_yyyy returns the input string itself, which is not
a canonical date string and not an unparseable signal. -/
theorem c1_counterexample :
    convert_date_to_d_mm_yyyy "notadate".toList = "notadate".toList ∧
    isCanonicalDate "notadate".toList = false := by
  constructor <;> decide

/-- Claim C1 (amended): parse_date either fails explicitly with none or
returns a canonical two-digit-day dash two-digit-month dash
four-digit-year string; convert_date_to_d_mm_yyyy returns the canonical
string when one of its formats matches and otherwise returns the
stripped original input unchanged (so it never fabricates a synthetic
date, but its failure result is the echoed input, not an unparseable
signal). -/
theorem c1_amended :
    (∀ (oracle : DateOracle) (s : Str),
        parse_date oracle s = none ∨
        ∃ r, parse_date oracle s = some r ∧ isCanonicalDate r = true) ∧
    (∀ s : Str,
        (∃ t, strptimeFirst (pyStrip s) = some t ∧
            convert_date_to_d_mm_yyyy s = fmtPD t ∧
            isCanonicalDate (fmtPD t) = true) ∨
        (strptimeFirst (pyStrip s) = none ∧
            convert_date_to_d_mm_yyyy s = pyStrip s)) := by
  constructor
  · intro oracle s
    cases h : oracle s with
    | none => left; simp [parse_date, h]
    | some v =>
      right
      exact ⟨fmtPD v.1, by simp [parse_date, h], isCanonicalDate_fmtPD v.1 v.2⟩
  · intro s
    cases h : strptimeFirst (pyStrip s) with
    | none =>
      right
      exact ⟨rfl, by simp [convert_date_to_d_mm_yyyy, h]⟩
    | some t =>
      left
      exact ⟨t, rfl, by simp [convert_date_to_d_mm_yyyy, h],
        isCanonicalDate_fmtPD t (strptimeFirst_valid h)⟩

/- ===== Round-trip lemmas for the canonical output ===== -/

theorem matchDay_pad2 (d : Nat) (h1 : 1 ≤ d) (h2 : d ≤ 31) (rest : Str) :
    matchDay (pad2 d ++ rest) =
      if d < 10 then [(d, rest)]
      else [(d, rest), (d / 10, Nat.digitChar (d % 10) :: rest)] := by
  interval_cases d <;> rfl

theorem matchMonthNum_pad2 (m : Nat) (h1 : 1 ≤ m) (h2 : m ≤ 12) (rest : Str) :
    matchMonthNum (pad2 m ++ rest) =
      if m < 10 then [(m, rest)]
      else [(m, rest), (1, Nat.digitChar (m % 10) :: rest)] := by
  interval_cases m <;> rfl

theorem matchYear4_pad4 (y : Nat) (hy : y < 10000) (rest : Str) :
    matchYear4 (pad4 y ++ rest) = [(y, rest)] := by
  have e1 : y / 1000 < 10 := by omega
  have e2 : y / 100 % 10 < 10 := by omega
  have e3 : y / 10 % 10 < 10 := by omega
  have e4 : y % 10 < 10 := by omega
  show matchYear4
      (Nat.digitChar (y / 1000) :: Nat.digitChar (y / 100 % 10) ::
        Nat.digitChar (y / 10 % 10) :: Nat.digitChar (y % 10) :: rest)
    = [(y, rest)]
  simp only [matchYear4]
  rw [if_pos ⟨digitChar_isDigit _ e1, digitChar_isDigit _ e2,
      digitChar_isDigit _ e3, digitChar_isDigit _ e4⟩,
    digitVal_digitChar _ e1, digitVal_digitChar _ e2,
    digitVal_digitChar _ e3, digitVal_digitChar _ e4]
  have : y / 1000 * 1000 + y / 100 % 10 * 100 + y / 10 % 10 * 10 + y % 10 = y := by
    omega
  rw [this]

theorem matchLit_same (c : Char) (rest : Str) :
    matchLit c (c :: rest) = [rest] := by
  simp [matchLit]

theorem matchLit_ne {c x : Char} (h : x ≠ c) (rest : Str) :
    matchLit c (x :: rest) = [] := by
  simp [matchLit, h]

theorem digitChar_ne_slash : ∀ n < 10, Nat.digitChar n ≠ '/' := by decide

theorem digitChar_ne_dash : ∀ n < 10, Nat.digitChar n ≠ '-' := by decide

/-- Format one, day slash month slash four-digit year, never matches the
canonical dash-separated output. -/
theorem matchFmt_f1_fmtPD (t : PDate) (hd1 : 1 ≤ t.day) (hd2 : t.day ≤ 31) :
    matchFmt ⟨'/', false, false⟩ (fmtPD t) = none := by
  have hne := digitChar_ne_slash (t.day % 10) (by omega)
  unfold matchFmt fmtPD
  rw [matchDay_pad2 t.day hd1 hd2]
  by_cases h10 : t.day < 10 <;>
    simp [h10, firstSome, matchLit, hne]

/-- Format two, day dash month dash four-digit year, re-parses the
canonical output to the same date triple and consumes all of it. -/
theorem matchFmt_f2_fmtPD (t : PDate) (hd1 : 1 ≤ t.day) (hd2 : t.day ≤ 31)
    (hm1 : 1 ≤ t.month) (hm2 : t.month ≤ 12) (hy : t.year < 10000) :
    matchFmt ⟨'-', false, false⟩ (fmtPD t) = some (t.day, t.month, t.year, []) := by
  have hmn := matchMonthNum_pad2 t.month hm1 hm2 ('-' :: pad4 t.year)
  have hy4 : matchYear4 (pad4 t.year) = [(t.year, [])] := by
    have := matchYear4_pad4 t.year hy []
    rwa [List.append_nil] at this
  unfold matchFmt fmtPD
  rw [matchDay_pad2 t.day hd1 hd2]
  by_cases h10 : t.day < 10 <;> by_cases hm10 : t.month < 10 <;>
    simp [h10, hm10, firstSome, matchLit, matchMonth, matchYear, hmn, hy4]

theorem daysInMonth_le_31 (m y : Nat) : daysInMonth m y ≤ 31 := by
  unfold daysInMonth
  split
  · split <;> omega
  · split <;> omega

theorem dropWhile_eq_self_of_all {p : Char → Bool} {l : Str}
    (h : ∀ c ∈ l, p c = false) : l.dropWhile p = l := by
  cases l with
  | nil => rfl
  | cons a t => simp [List.dropWhile, h a (List.mem_cons_self _ _)]

theorem pyStrip_eq_self {l : Str} (h : ∀ c ∈ l, c.isWhitespace = false) :
    pyStrip l = l := by
  unfold pyStrip
  rw [dropWhile_eq_self_of_all h,
    dropWhile_eq_self_of_all (fun c hc => h c (List.mem_reverse.mp hc)),
    List.reverse_reverse]

theorem fmtPD_not_ws (t : PDate) (h : ValidPD t) :
    ∀ c ∈ fmtPD t, c.isWhitespace = false := by
  obtain ⟨hm1, hm2, hd1, hd2, hy1, hy2⟩ := h
  have hdm : t.day ≤ 31 := le_trans hd2 (daysInMonth_le_31 _ _)
  intro c hc
  simp only [fmtPD, pad2, pad4, List.cons_append, List.nil_append,
    List.mem_cons, List.not_mem_nil, or_false] at hc
  rcases hc with rfl | rfl | rfl | rfl | rfl | rfl | rfl | rfl | rfl | rfl <;>
    first
      | exact digitChar_not_ws _ (by omega)
      | decide

theorem strptimeFirst_fmtPD (t : PDate) (h : ValidPD t) :
    strptimeFirst (fmtPD t) = some t := by
  obtain ⟨hm1, hm2, hd1, hd2, hy1, hy2⟩ := h
  have hdm : t.day ≤ 31 := le_trans hd2 (daysInMonth_le_31 _ _)
  have h1 : strptime ⟨'/', false, false⟩ (fmtPD t) = none := by
    unfold strptime
    rw [matchFmt_f1_fmtPD t hd1 hdm]
  have h2 : strptime ⟨'-', false, false⟩ (fmtPD t) = some t := by
    unfold strptime
    rw [matchFmt_f2_fmtPD t hd1 hdm hm1 hm2 (by omega)]
    show (if ([] : Str) = [] then checkDate t.day t.month t.year else none) = some t
    rw [if_pos rfl]
    unfold checkDate
    rw [if_pos ⟨hm1, hm2, hd1, hd2, hy1, hy2⟩]
  unfold strptimeFirst possible_formats
  simp only [firstSome, h1, h2]

/-- Claim C8: the date normalizer is idempotent on canonical output: for
every input string accepted by some supported format, normalizing the
canonical two-digit-day dash two-digit-month dash four-digit-year string
it produced returns that string unchanged. -/
theorem c8_convert_idempotent (s : Str) (t : PDate)
    (h : strptimeFirst (pyStrip s) = some t) :
    convert_date_to_d_mm_yyyy (convert_date_to_d_mm_yyyy s)
      = convert_date_to_d_mm_yyyy s := by
  have hv : ValidPD t := strptimeFirst_valid h
  have h1 : convert_date_to_d_mm_yyyy s = fmtPD t := by
    unfold convert_date_to_d_mm_yyyy
    rw [h]
  rw [h1]
  unfold convert_date_to_d_mm_yyyy
  rw [pyStrip_eq_self (fmtPD_not_ws t hv), strptimeFirst_fmtPD t hv]

/-- Witness for claim C8 at a concrete date in the first supported
format. -/
theorem c8_witness :
    convert_date_to_d_mm_yyyy (convert_date_to_d_mm_yyyy "01/02/2022".toList)
      = convert_date_to_d_mm_yyyy "01/02/2022".toList :=
  c8_convert_idempotent "01/02/2022".toList ⟨1, 2, 2022⟩ (by decide)

/- ===== Last-match characterization of the header mapper ===== -/

theorem Mapping.get_set_same (m : Mapping) (f : CanonField) (i : Nat) :
    (m.set f i).get f = some i := by
  cases f <;> rfl

theorem Mapping.get_set_other (m : Mapping) {f g : CanonField} (i : Nat)
    (h : f ≠ g) : (m.set f i).get g = m.get g := by
  cases f <;> cases g <;> first | exact absurd rfl h | rfl

theorem emptyMapping_get (f : CanonField) : emptyMapping.get f = none := by
  cases f <;> rfl

theorem map_headers_go_append :
    ∀ (xs ys : List Str) (idx : Nat) (m : Mapping),
      map_headers_go idx m (xs ++ ys)
        = map_headers_go (idx + xs.length) (map_headers_go idx m xs) ys := by
  intro xs
  induction xs with
  | nil => intro ys idx m; simp [map_headers_go]
  | cons h t ih =>
    intro ys idx m
    have harith : idx + 1 + t.length = idx + (t.length + 1) := by omega
    cases hx : headerField (cleanHeader h) with
    | some f =>
      simp only [List.cons_append, map_headers_go, hx, List.length_cons]
      rw [List.append_eq, ih, harith]
    | none =>
      simp only [List.cons_append, map_headers_go, hx, List.length_cons]
      rw [List.append_eq, ih, harith]

/-- Predicate: the header row has a cell at position i and the per-cell
synonym scan assigns that cell to canonical field f. -/
def matchesAt (hs : List Str) (f : CanonField) (i : Nat) : Prop :=
  i < hs.length ∧ headerField (cleanHeader (hs.getD i [])) = some f

theorem map_headers_append_singleton (xs : List Str) (x : Str) :
    map_headers (xs ++ [x])
      = match headerField (cleanHeader x) with
        | some f => (map_headers xs).set f xs.length
        | none => map_headers xs := by
  unfold map_headers
  rw [map_headers_go_append]
  cases hx : headerField (cleanHeader x) <;>
    simp [map_headers_go, hx]

/-- Claim C2 (amended): when several header cells are assigned the same
canonical field, map_headers maps that field to the column index of the
last (rightmost) such cell, not the first: the mapping holds index i
exactly when cell i is assigned the field and no later cell is. -/
theorem c2_amended (hs : List Str) (f : CanonField) (i : Nat) :
    (map_headers hs).get f = some i ↔
      (matchesAt hs f i ∧ ∀ j, i < j → ¬ matchesAt hs f j) := by
  induction hs using List.reverseRecOn generalizing i with
  | nil =>
    simp [map_headers, map_headers_go, emptyMapping_get, matchesAt]
  | append_singleton xs x ih =>
    rw [map_headers_append_singleton]
    cases hx : headerField (cleanHeader x) with
    | some g =>
      by_cases hgf : g = f
      · subst hgf
        rw [Mapping.get_set_same]
        constructor
        · intro h
          injection h with h
          subst h
          refine ⟨⟨by simp, ?_⟩, ?_⟩
          · rw [List.getD_append_right xs [x] _ _ (le_refl _)]
            simpa using hx
          · rintro j hj ⟨hjlen, _⟩
            simp at hjlen
            omega
        · rintro ⟨⟨hilen, hmi⟩, hafter⟩
          simp at hilen
          rcases Nat.lt_or_ge i xs.length with hlt | hge
          · exfalso
            apply hafter xs.length hlt
            refine ⟨by simp, ?_⟩
            rw [List.getD_append_right xs [x] _ _ (le_refl _)]
            simpa using hx
          · have hii : i = xs.length := by omega
            rw [hii]
      · have hxnot : ∀ k, matchesAt (xs ++ [x]) f k ↔ matchesAt xs f k := by
          intro k
          unfold matchesAt
          constructor
          · rintro ⟨hk, hm⟩
            simp at hk
            rcases Nat.lt_or_ge k xs.length with hlt | hge
            · rw [List.getD_append xs [x] _ _ hlt] at hm
              exact ⟨hlt, hm⟩
            · exfalso
              have hk2 : k = xs.length := by omega
              rw [hk2, List.getD_append_right xs [x] _ _ (le_refl _)] at hm
              simp at hm
              rw [hx] at hm
              injection hm with hm
              exact hgf hm
          · rintro ⟨hk, hm⟩
            refine ⟨by simp; omega, ?_⟩
            rw [List.getD_append xs [x] _ _ hk]
            exact hm
        rw [Mapping.get_set_other _ _ hgf, ih]
        constructor
        · rintro ⟨hmi, hafter⟩
          exact ⟨(hxnot i).mpr hmi, fun j hj hm => hafter j hj ((hxnot j).mp hm)⟩
        · rintro ⟨hmi, hafter⟩
          exact ⟨(hxnot i).mp hmi, fun j hj hm => hafter j hj ((hxnot j).mpr hm)⟩
    | none =>
      have hxnot : ∀ k, matchesAt (xs ++ [x]) f k ↔ matchesAt xs f k := by
        intro k
        unfold matchesAt
        constructor
        · rintro ⟨hk, hm⟩
          simp at hk
          rcases Nat.lt_or_ge k xs.length with hlt | hge
          · rw [List.getD_append xs [x] _ _ hlt] at hm
            exact ⟨hlt, hm⟩
          · exfalso
            have hk2 : k = xs.length := by omega
            rw [hk2, List.getD_append_right xs [x] _ _ (le_refl _)] at hm
            simp at hm
            rw [hx] at hm
            cases hm
        · rintro ⟨hk, hm⟩
          refine ⟨by simp; omega, ?_⟩
          rw [List.getD_append xs [x] _ _ hk]
          exact hm
      rw [ih]
      constructor
      · rintro ⟨hmi, hafter⟩
        exact ⟨(hxnot i).mpr hmi, fun j hj hm => hafter j hj ((hxnot j).mp hm)⟩
      · rintro ⟨hmi, hafter⟩
        exact ⟨(hxnot i).mp hmi, fun j hj hm => hafter j hj ((hxnot j).mpr hm)⟩

/- ===== Bank registry: src/app.py lines 56-75 ===== -/

/-- Model of register_parser from src/app.py lines 60-62: the registry
is the insertion-ordered dict self.parsers as an association list from
lowercased bank name to the registered strategy (abstract type α); a
dict assignment keeps the position of an existing key and appends a new
key at the end. -/
def registerBank {α : Type} (reg : List (Str × α)) (bank_name : Str) (fn : α) :
    List (Str × α) :=
  match reg with
  | [] => [(strLower bank_name, fn)]
  | (k, v) :: rest =>
    if k = strLower bank_name then (k, fn) :: rest
    else (k, v) :: registerBank rest bank_name fn

namespace BankParser

/-- parse from src/app.py lines 64-75, after the collaborator has
produced the first page's text: scan the registry in insertion order and
dispatch on the first registered name that occurs case-insensitively in
the text; none models the ValueError raised when no name matches. -/
def parse {α : Type} (reg : List (Str × α)) (first_page_text : Str) : Option α :=
  match reg with
  | [] => none
  | (bank_name, fn) :: rest =>
    if strIn (strLower bank_name) (strLower first_page_text) then some fn
    else parse rest first_page_text

end BankParser

/-- Claim C4: for every first-page text and registry, bank
identification dispatches to the strategy of the first registered bank
name (registration order is priority) that occurs case-insensitively as
a substring of the text, and when no registered name matches the
operation fails with the explicit bank-not-recognized error (modelled as
none), never with an empty or part-filled success result. -/
theorem c4_bank_dispatch {α : Type} (reg : List (Str × α)) (text : Str) :
    BankParser.parse reg text
        = (reg.find? (fun kv => strIn (strLower kv.1) (strLower text))).map
            Prod.snd ∧
    (BankParser.parse reg text = none ↔
        ∀ kv ∈ reg, strIn (strLower kv.1) (strLower text) = false) := by
  have h1 : BankParser.parse reg text
      = (reg.find? (fun kv => strIn (strLower kv.1) (strLower text))).map
          Prod.snd := by
    induction reg with
    | nil => rfl
    | cons kv rest ih =>
      cases kv with
      | mk k v =>
        by_cases h : strIn (strLower k) (strLower text) = true
        · simp [BankParser.parse, List.find?, h]
        · simp [BankParser.parse, List.find?, h, ih]
  refine ⟨h1, ?_⟩
  rw [h1, Option.map_eq_none', List.find?_eq_none]
  simp only [Bool.not_eq_true]

/- ===== Transaction extractor: src/exp_parser.py lines 137-170 ===== -/

inductive PErr where
  | emptyMax
  | indexErr
deriving DecidableEq

/-- Maximum of a list of naturals; none on the empty list, modelling the
ValueError that max raises on an empty collection. -/
def maxNat : List Nat → Option Nat
  | [] => none
  | x :: xs =>
    match maxNat xs with
    | none => some x
    | some m => some (Nat.max x m)

/-- Values view of the mapped dict, mapped_headers.values(). -/
def Mapping.vals (m : Mapping) : List Nat :=
  [m.dateIdx, m.descriptionIdx, m.debitIdx, m.creditIdx, m.balanceIdx].filterMap id

/-- max(mapped_headers.values()) of line 141. -/
def Mapping.maxIdx (m : Mapping) : Option Nat := maxNat m.vals

/-- Python row[i] as a checked access; error models an IndexError. -/
def getCell (row : List Str) (i : Nat) : Except PErr Str :=
  match row.get? i with
  | some c => Except.ok c
  | none => Except.error PErr.indexErr

/-- Cell fetch for DATE and DESCRIPTION: row at the mapped index,
stripped, or the default when the field is unmapped. -/
def fetchStr (row : List Str) (mi : Option Nat) (dflt : Str) : Except PErr Str :=
  match mi with
  | some i => (getCell row i).map pyStrip
  | none => Except.ok dflt

/-- Cell fetch for DEBIT, CREDIT and BALANCE: parse_amount of the
stripped cell, or the empty string when the field is unmapped. -/
def fetchAmount (row : List Str) (mi : Option Nat) : Except PErr Str :=
  match mi with
  | some i => (getCell row i).map (fun c => parse_amount (pyStrip c))
  | none => Except.ok []

/-- Body of the extract_transactions loop for one row, lines 139-168:
ok none models continue (row skipped), ok some a kept transaction,
error an exception escaping the loop (max over an empty mapping, or an
out-of-range cell access). -/
def extractRow (oracle : DateOracle) (mh : Mapping) (row : List Str) :
    Except PErr (Option Transaction) :=
  match mh.maxIdx with
  | none => Except.error PErr.emptyMax
  | some mx =>
    if row.length < mx + 1 then Except.ok none
    else
      (fetchStr row mh.dateIdx "NA".toList).bind (fun dateCell =>
      (fetchStr row mh.descriptionIdx "NA".toList).bind (fun descCell =>
      (fetchAmount row mh.debitIdx).bind (fun debitA =>
      (fetchAmount row mh.creditIdx).bind (fun creditA =>
      (fetchAmount row mh.balanceIdx).map (fun balA =>
        match parse_date oracle dateCell with
        | none => none
        | some pd =>
          if debitA = [] ∧ creditA = [] then none
          else some ⟨pd, descCell, debitA, creditA, balA⟩)))))

/-- extract_transactions from src/exp_parser.py lines 137-170; the page
number argument only feeds logging and is omitted. -/
def extract_transactions (oracle : DateOracle) (tables : List (List Str))
    (mapped_headers : Mapping) : Except PErr (List Transaction) :=
  match tables with
  | [] => Except.ok []
  | row :: rest =>
    (extractRow oracle mapped_headers row).bind (fun o =>
      (extract_transactions oracle rest mapped_headers).map (fun ts =>
        match o with
        | some t => t :: ts
        | none => ts))

/-- Required-headers check of process_pdf lines 230-235: the table is
kept only when all five canonical fields are mapped. -/
def allRequired (m : Mapping) : Bool :=
  m.dateIdx.isSome && m.descriptionIdx.isSome && m.debitIdx.isSome &&
  m.creditIdx.isSome && m.balanceIdx.isSome

/-- Rows loop of process_pdf lines 237-240: one extract_transactions
call per data row, results concatenated in order. -/
def processRows (oracle : DateOracle) (mh : Mapping) :
    List (List Str) → Except PErr (List Transaction)
  | [] => Except.ok []
  | row :: rest =>
    (extract_transactions oracle [row] mh).bind (fun ts =>
      (processRows oracle mh rest).map (fun ts2 => ts ++ ts2))

/-- Tables loop of process_pdf lines 222-240: skip empty tables and
tables with fewer than two rows, map the first row as headers, skip
tables whose mapping misses a required field, extract from the data
rows. -/
def processTables (oracle : DateOracle) :
    List (List (List Str)) → Except PErr (List Transaction)
  | [] => Except.ok []
  | table :: rest =>
    match table with
    | [] => processTables oracle rest
    | [_] => processTables oracle rest
    | headers :: dataRows =>
      if allRequired (map_headers headers) then
        (processRows oracle (map_headers headers) dataRows).bind (fun ts =>
          (processTables oracle rest).map (fun ts2 => ts ++ ts2))
      else processTables oracle rest

/- ===== Lemmas about the extractor ===== -/

theorem maxNat_mem_le :
    ∀ (l : List Nat) (a mx : Nat), a ∈ l → maxNat l = some mx → a ≤ mx := by
  intro l
  induction l with
  | nil => intro a mx ha _; cases ha
  | cons x xs ih =>
    intro a mx ha hm
    rw [maxNat] at hm
    cases hxs : maxNat xs with
    | none =>
      rw [hxs] at hm
      injection hm with hm
      subst hm
      rcases List.mem_cons.mp ha with rfl | ha2
      · exact le_refl a
      · exfalso
        cases xs with
        | nil => cases ha2
        | cons b bs =>
          rw [maxNat] at hxs
          cases hbs : maxNat bs <;> rw [hbs] at hxs <;> cases hxs
    | some m =>
      rw [hxs] at hm
      injection hm with hm
      subst hm
      rcases List.mem_cons.mp ha with rfl | ha2
      · exact Nat.le_max_left _ _
      · exact le_trans (ih a m ha2 hxs) (Nat.le_max_right _ _)

theorem maxNat_isSome_of_mem {l : List Nat} {a : Nat} (h : a ∈ l) :
    ∃ m, maxNat l = some m := by
  cases l with
  | nil => cases h
  | cons x xs =>
    rw [maxNat]
    cases maxNat xs <;> exact ⟨_, rfl⟩

theorem get?_some_of_lt :
    ∀ (l : List Str) (i : Nat), i < l.length → ∃ c, l.get? i = some c := by
  intro l
  induction l with
  | nil => intro i h; simp at h
  | cons a t ih =>
    intro i h
    cases i with
    | zero => exact ⟨a, rfl⟩
    | succ n => exact ih n (by simpa using h)

theorem getCell_ok {row : List Str} {i : Nat} (h : i < row.length) :
    ∃ c, getCell row i = Except.ok c := by
  rcases get?_some_of_lt row i h with ⟨c, hc⟩
  refine ⟨c, ?_⟩
  unfold getCell
  rw [hc]

theorem field_lt {mh : Mapping} {mx : Nat} {row : List Str}
    (hmx : mh.maxIdx = some mx) (hlen : ¬ row.length < mx + 1)
    {mi : Option Nat}
    (hmem : mi ∈ [mh.dateIdx, mh.descriptionIdx, mh.debitIdx,
      mh.creditIdx, mh.balanceIdx]) :
    ∀ i, mi = some i → i < row.length := by
  intro i hi
  subst hi
  have hv : i ∈ mh.vals := List.mem_filterMap.mpr ⟨some i, hmem, rfl⟩
  have hle := maxNat_mem_le mh.vals i mx hv hmx
  omega

theorem fetchStr_ok {row : List Str} {mi : Option Nat} {dflt : Str}
    (hb : ∀ i, mi = some i → i < row.length) :
    ∃ c, fetchStr row mi dflt = Except.ok c := by
  cases mi with
  | none => exact ⟨dflt, rfl⟩
  | some i =>
    rcases getCell_ok (hb i rfl) with ⟨c, hc⟩
    exact ⟨pyStrip c, by simp [fetchStr, hc, Except.map]⟩

theorem fetchAmount_ok {row : List Str} {mi : Option Nat}
    (hb : ∀ i, mi = some i → i < row.length) :
    ∃ c, fetchAmount row mi = Except.ok c := by
  cases mi with
  | none => exact ⟨[], rfl⟩
  | some i =>
    rcases getCell_ok (hb i rfl) with ⟨c, hc⟩
    exact ⟨parse_amount (pyStrip c), by simp [fetchAmount, hc, Except.map]⟩

theorem extractRow_cases (oracle : DateOracle) (mh : Mapping) (row : List Str) :
    (mh.maxIdx = none ∧ extractRow oracle mh row = Except.error PErr.emptyMax) ∨
    (∃ o, extractRow oracle mh row = Except.ok o) := by
  cases hmx : mh.maxIdx with
  | none => exact Or.inl ⟨rfl, by simp only [extractRow, hmx]⟩
  | some mx =>
    right
    by_cases hlen : row.length < mx + 1
    · exact ⟨none, by simp only [extractRow, hmx, if_pos hlen]⟩
    · obtain ⟨dc, hdc⟩ :=
        @fetchStr_ok row mh.dateIdx ("NA".toList) (field_lt hmx hlen (by simp))
      obtain ⟨sc, hsc⟩ :=
        @fetchStr_ok row mh.descriptionIdx ("NA".toList)
          (field_lt hmx hlen (by simp))
      obtain ⟨da, hda⟩ :=
        @fetchAmount_ok row mh.debitIdx (field_lt hmx hlen (by simp))
      obtain ⟨ca, hca⟩ :=
        @fetchAmount_ok row mh.creditIdx (field_lt hmx hlen (by simp))
      obtain ⟨ba, hba⟩ :=
        @fetchAmount_ok row mh.balanceIdx (field_lt hmx hlen (by simp))
      have hrun : extractRow oracle mh row
          = Except.ok (match parse_date oracle dc with
            | none => none
            | some pd =>
              if da = [] ∧ ca = [] then none
              else some ⟨pd, sc, da, ca, ba⟩) := by
        simp only [extractRow, hmx, if_neg hlen, hdc, hsc, hda, hca, hba,
          Except.bind, Except.map]
      exact ⟨_, hrun⟩

theorem extract_transactions_cases (oracle : DateOracle) (mh : Mapping) :
    ∀ tables, (∃ l, extract_transactions oracle tables mh = Except.ok l) ∨
      (mh.maxIdx = none ∧
        extract_transactions oracle tables mh = Except.error PErr.emptyMax) := by
  intro tables
  induction tables with
  | nil => exact Or.inl ⟨[], rfl⟩
  | cons row rest ih =>
    rcases extractRow_cases oracle mh row with ⟨hmx, hr⟩ | ⟨o, hr⟩
    · right
      refine ⟨hmx, ?_⟩
      simp only [extract_transactions, hr, Except.bind]
    · rcases ih with ⟨l, hl⟩ | ⟨hmx, hl⟩
      · left
        cases o with
        | some t =>
          exact ⟨t :: l, by
            simp only [extract_transactions, hr, hl, Except.bind, Except.map]⟩
        | none =>
          exact ⟨l, by
            simp only [extract_transactions, hr, hl, Except.bind, Except.map]⟩
      · right
        refine ⟨hmx, ?_⟩
        simp only [extract_transactions, hr, hl, Except.bind, Except.map]

/-- Claim C5: a data row shorter than the mapping's maximum mapped column
index plus one is skipped, contributing no transaction, and consequently
extract_transactions never fails with an out-of-range cell access. -/
theorem c5_short_rows_skipped :
    (∀ (oracle : DateOracle) (mh : Mapping) (mx : Nat) (row : List Str)
        (rest : List (List Str)),
        mh.maxIdx = some mx → row.length < mx + 1 →
        extractRow oracle mh row = Except.ok none ∧
        extract_transactions oracle (row :: rest) mh
          = extract_transactions oracle rest mh) ∧
    (∀ (oracle : DateOracle) (tables : List (List Str)) (mh : Mapping),
        extract_transactions oracle tables mh
          ≠ Except.error PErr.indexErr) := by
  constructor
  · intro oracle mh mx row rest hmx hlen
    have h1 : extractRow oracle mh row = Except.ok none := by
      simp only [extractRow, hmx, if_pos hlen]
    refine ⟨h1, ?_⟩
    simp only [extract_transactions, h1, Except.bind]
    cases hrest : extract_transactions oracle rest mh <;> simp [Except.map]
  · intro oracle tables mh
    rcases extract_transactions_cases oracle mh tables with ⟨l, hl⟩ | ⟨_, hl⟩ <;>
      simp [hl]

def oracle0 : DateOracle := fun _ => none

def fullMap : Mapping := ⟨some 0, some 1, some 2, some 3, some 4⟩

/-- Witness for claim C5: under the five-column mapping with maximum
index 4 a one-cell row is skipped. -/
theorem c5_witness :
    extractRow oracle0 fullMap ["x".toList] = Except.ok none ∧
    extract_transactions oracle0 [["x".toList]] fullMap
      = extract_transactions oracle0 [] fullMap :=
  c5_short_rows_skipped.1 oracle0 fullMap 4 ["x".toList] [] rfl (by decide)

theorem allRequired_maxIdx {m : Mapping} (h : allRequired m = true) :
    ∃ mx, m.maxIdx = some mx := by
  unfold allRequired at h
  simp only [Bool.and_eq_true] at h
  rcases Option.isSome_iff_exists.mp h.1.1.1.1 with ⟨i, hi⟩
  have hv : i ∈ m.vals := List.mem_filterMap.mpr ⟨some i, by simp [hi], rfl⟩
  exact maxNat_isSome_of_mem hv

theorem processRows_ok (oracle : DateOracle) (mh : Mapping)
    (hmx : ∃ mx, mh.maxIdx = some mx) :
    ∀ rows, ∃ l, processRows oracle mh rows = Except.ok l := by
  intro rows
  induction rows with
  | nil => exact ⟨[], rfl⟩
  | cons row rest ih =>
    obtain ⟨mx, hmx2⟩ := hmx
    rcases extract_transactions_cases oracle mh [row] with ⟨l1, h1⟩ | ⟨hn, _⟩
    · rcases ih with ⟨l2, h2⟩
      exact ⟨l1 ++ l2,
        by simp only [processRows, h1, h2, Except.bind, Except.map]⟩
    · rw [hn] at hmx2
      cases hmx2

theorem processTables_ok (oracle : DateOracle) :
    ∀ tables, ∃ l, processTables oracle tables = Except.ok l := by
  intro tables
  induction tables with
  | nil => exact ⟨[], rfl⟩
  | cons table rest ih =>
    rcases table with _ | ⟨headers, dataRows⟩
    · simpa [processTables] using ih
    · rcases dataRows with _ | ⟨d1, drest⟩
      · simpa [processTables] using ih
      · by_cases hreq : allRequired (map_headers headers) = true
        · obtain ⟨l1, h1⟩ := processRows_ok oracle (map_headers headers)
            (allRequired_maxIdx hreq) (d1 :: drest)
          obtain ⟨l2, h2⟩ := ih
          exact ⟨l1 ++ l2, by
            simp only [processTables, hreq, if_true, h1, h2,
              Except.bind, Except.map]⟩
        · obtain ⟨l2, h2⟩ := ih
          exact ⟨l2, by simp [processTables, hreq, h2]⟩

/-- Claim C10: the row-length guard takes the maximum over the mapping's
values, so extract_transactions on a non-empty row list with the empty
header mapping fails (the exception from max over an empty collection)
instead of returning an empty list; and inside process_pdf the mapping
is never empty, because tables missing a required field are skipped, so
the whole per-page table loop always succeeds. -/
theorem c10_empty_mapping_fails :
    (∀ (oracle : DateOracle) (row : List Str) (rest : List (List Str)),
        extract_transactions oracle (row :: rest) emptyMapping
          = Except.error PErr.emptyMax) ∧
    (∀ (oracle : DateOracle) (tables : List (List (List Str))),
        ∃ l, processTables oracle tables = Except.ok l) := by
  constructor
  · intro oracle row rest
    have h0 : emptyMapping.maxIdx = none := rfl
    simp only [extract_transactions, extractRow, h0, Except.bind]
  · exact fun oracle tables => processTables_ok oracle tables

theorem extractRow_some_inv {oracle : DateOracle} {mh : Mapping}
    {row : List Str} {t : Transaction}
    (h : extractRow oracle mh row = Except.ok (some t)) :
    (∃ raw v, oracle raw = some v ∧ t.DATE = fmtPD v.1) ∧
    (t.DEBIT ≠ [] ∨ t.CREDIT ≠ []) := by
  rw [extractRow] at h
  cases hmx : mh.maxIdx with
  | none => rw [hmx] at h; simp at h
  | some mx =>
    rw [hmx] at h
    simp only [] at h
    by_cases hlen : row.length < mx + 1
    · rw [if_pos hlen] at h
      simp at h
    · rw [if_neg hlen] at h
      cases hdc : fetchStr row mh.dateIdx "NA".toList with
      | error e => rw [hdc] at h; simp [Except.bind] at h
      | ok dc =>
        rw [hdc] at h
        simp only [Except.bind] at h
        cases hsc : fetchStr row mh.descriptionIdx "NA".toList with
        | error e => rw [hsc] at h; simp [Except.bind] at h
        | ok sc =>
          rw [hsc] at h
          simp only [Except.bind] at h
          cases hda : fetchAmount row mh.debitIdx with
          | error e => rw [hda] at h; simp [Except.bind] at h
          | ok da =>
            rw [hda] at h
            simp only [Except.bind] at h
            cases hca : fetchAmount row mh.creditIdx with
            | error e => rw [hca] at h; simp [Except.bind] at h
            | ok ca =>
              rw [hca] at h
              simp only [Except.bind] at h
              cases hba : fetchAmount row mh.balanceIdx with
              | error e => rw [hba] at h; simp [Except.map] at h
              | ok ba =>
                rw [hba] at h
                simp only [Except.map, Except.ok.injEq] at h
                split at h
                next hpd => simp at h
                next pd hpd =>
                  split at h
                  next hdc2 => simp at h
                  next hdc2 =>
                    injection h with h
                    subst h
                    constructor
                    · unfold parse_date at hpd
                      cases ho : oracle dc with
                      | none => rw [ho] at hpd; simp at hpd
                      | some v =>
                        rw [ho] at hpd
                        simp only [Option.map_some'] at hpd
                        injection hpd with hpd
                        exact ⟨dc, v, ho, hpd.symm⟩
                    · exact not_and_or.mp hdc2

/-- Claim C3: every transaction emitted by the extractor carries the
canonical formatting of a date the dateutil parser accepted (never a
placeholder), and has a non-empty debit or a non-empty credit; rows with
an unparseable date or with both normalized amounts empty contribute no
transaction. -/
theorem c3_emitted_invariant (oracle : DateOracle) (tables : List (List Str))
    (mh : Mapping) (l : List Transaction)
    (h : extract_transactions oracle tables mh = Except.ok l) :
    ∀ t ∈ l, (∃ raw v, oracle raw = some v ∧ t.DATE = fmtPD v.1) ∧
      (t.DEBIT ≠ [] ∨ t.CREDIT ≠ []) := by
  induction tables generalizing l with
  | nil =>
    simp only [extract_transactions] at h
    injection h with h
    subst h
    intro t ht
    cases ht
  | cons row rest ih =>
    simp only [extract_transactions] at h
    cases hr : extractRow oracle mh row with
    | error e => rw [hr] at h; simp [Except.bind] at h
    | ok o =>
      rw [hr] at h
      simp only [Except.bind] at h
      cases hrest : extract_transactions oracle rest mh with
      | error e => rw [hrest] at h; simp [Except.map] at h
      | ok ts =>
        rw [hrest] at h
        simp only [Except.map, Except.ok.injEq] at h
        subst h
        cases o with
        | none => exact ih ts hrest
        | some t0 =>
          intro t ht
          rcases List.mem_cons.mp ht with rfl | ht2
          · exact extractRow_some_inv hr
          · exact ih ts hrest t ht2

def oracleW : DateOracle := fun s =>
  if s = "01/02/2022".toList then some ⟨⟨1, 2, 2022⟩, by decide⟩ else none

def rowW : List Str :=
  ["01/02/2022".toList, "desc".toList, "500.00".toList, "".toList,
   "1200.00".toList]

def txW : Transaction :=
  ⟨"01-02-2022".toList, "desc".toList, "500.00".toList, [],
   "1200.00".toList⟩

/-- Witness for claim C3: a concrete run emitting one transaction whose
invariant is given by the claim theorem. -/
theorem c3_witness :
    (∃ raw v, oracleW raw = some v ∧ txW.DATE = fmtPD v.1) ∧
      (txW.DEBIT ≠ [] ∨ txW.CREDIT ≠ []) :=
  c3_emitted_invariant oracleW [rowW] fullMap [txW] rfl txW
    (List.mem_cons_self txW [])

/- ===== Metadata extractor: src/exp_parser.py lines 37-43, 73-135 ===== -/

/-- Python word character for the word-boundary assertion (ASCII
fragment): letter, digit or underscore. -/
def isWordChar (c : Char) : Bool := c.isAlpha || c.isDigit || c = '_'

def isUpperAZ (c : Char) : Bool := decide ('A' ≤ c) && decide (c ≤ 'Z')

def isUpperAZ09 (c : Char) : Bool := isUpperAZ c || c.isDigit

/-- Word boundary after a match: end of string or a non-word character. -/
def boundaryAt : Str → Bool
  | [] => true
  | d :: _ => !(isWordChar d)

/-- Word boundary before a position: start of string or the previous
character is not a word character. -/
def boundaryBefore : Option Char → Bool
  | none => true
  | some p => !(isWordChar p)

/-- Match of the IFSC pattern at the current position: four capital
letters, a zero, six capitals-or-digits, then a word boundary. -/
def ifscHere : Str → Option Str
  | c1 :: c2 :: c3 :: c4 :: c5 :: c6 :: c7 :: c8 :: c9 :: c10 :: c11 :: rest =>
    if isUpperAZ c1 ∧ isUpperAZ c2 ∧ isUpperAZ c3 ∧ isUpperAZ c4 ∧ c5 = '0' ∧
        isUpperAZ09 c6 ∧ isUpperAZ09 c7 ∧ isUpperAZ09 c8 ∧ isUpperAZ09 c9 ∧
        isUpperAZ09 c10 ∧ isUpperAZ09 c11 ∧ boundaryAt rest = true then
      some [c1, c2, c3, c4, c5, c6, c7, c8, c9, c10, c11]
    else none
  | _ => none

/-- Leftmost-first scan of re.search with the IFSC pattern, tracking the
previous character for the leading word boundary. -/
def detect_ifsc_go (prev : Option Char) : Str → Option Str
  | [] => none
  | c :: rest =>
    match (if boundaryBefore prev then ifscHere (c :: rest) else none) with
    | some m => some m
    | none => detect_ifsc_go (some c) rest

/-- detect_ifsc_code from src/exp_parser.py lines 39-43. -/
def detect_ifsc_code (text : Str) : Option Str := detect_ifsc_go none text

/-- One named entity produced by the external NER collaborator. -/
structure Ent where
  label : Str
  text : Str

structure DocMetadata where
  BankName : Str
  AccountHolder : Str
  AccountNumber : Str
  IFSCCode : Str
  TransactionFrom : Str
  TransactionTo : Str
  ClearedBalance : Str

/-- Sentinel-initialized metadata dict of lines 75-83. -/
def initMetadata : DocMetadata :=
  ⟨"Unknown Bank".toList, "NA".toList, "NA".toList, "NA".toList,
   "NA".toList, "NA".toList, "NA".toList⟩

/-- Body of the entity loop of lines 86-96: first organization fills the
bank name, first person-or-organization (not already used for the bank)
fills the holder, first cardinal of length at least eight fills the
account number. -/
def entStep (m : DocMetadata) (e : Ent) : DocMetadata :=
  if e.label = "ORG".toList ∧ m.BankName = "Unknown Bank".toList then
    { m with BankName := e.text }
  else if (e.label = "PERSON".toList ∨ e.label = "ORG".toList) ∧
      m.AccountHolder = "NA".toList then
    { m with AccountHolder := e.text }
  else if e.label = "CARDINAL".toList ∧ m.AccountNumber = "NA".toList then
    (if 8 ≤ e.text.length then { m with AccountNumber := e.text } else m)
  else m

/-- IFSC update of lines 98-102. -/
def applyIFSC (text : Str) (m : DocMetadata) : DocMetadata :=
  match detect_ifsc_code text with
  | some code => { m with IFSCCode := code }
  | none => m

/-- Transaction-period update of lines 104-120: the single-date pattern
has priority; its findall result list dF holds the captured group of
each match, the range pattern's findall result dP holds pairs; the first
match of the first pattern with any match wins, parse failures fall back
to the sentinel via the or-expression. -/
def applyDates (oracle : DateOracle) (dF : List Str) (dP : List (Str × Str))
    (m : DocMetadata) : DocMetadata :=
  match dF with
  | m1 :: _ =>
    { m with TransactionFrom := (parse_date oracle m1).getD "NA".toList,
             TransactionTo := (parse_date oracle m1).getD "NA".toList }
  | [] =>
    match dP with
    | (a, b) :: _ =>
      { m with TransactionFrom := (parse_date oracle a).getD "NA".toList,
               TransactionTo := (parse_date oracle b).getD "NA".toList }
    | [] => m

/-- Balance update of lines 122-133: the first of the three prioritized
label patterns with a search hit fills the field with its captured
group. -/
def applyBalance (b1 b2 b3 : Option Str) (m : DocMetadata) : DocMetadata :=
  match b1 with
  | some v => { m with ClearedBalance := v }
  | none =>
    match b2 with
    | some v => { m with ClearedBalance := v }
    | none =>
      match b3 with
      | some v => { m with ClearedBalance := v }
      | none => m

/-- extract_metadata from src/exp_parser.py lines 73-135; the NER entity
list and the findall or search results of the free-text regexes are
oracle inputs, applied in source order. -/
def extract_metadata (oracle : DateOracle) (ents : List Ent) (text : Str)
    (dF : List Str) (dP : List (Str × Str)) (b1 b2 b3 : Option Str) :
    DocMetadata :=
  applyBalance b1 b2 b3
    (applyDates oracle dF dP
      (applyIFSC text (List.foldl entStep initMetadata ents)))

/- ===== Stage lemmas for the metadata extractor ===== -/

theorem entStep_bank (m : DocMetadata) (e : Ent) :
    (entStep m e).BankName = m.BankName ∨
      (e.label = "ORG".toList ∧ (entStep m e).BankName = e.text) := by
  unfold entStep
  split
  next hc => exact Or.inr ⟨hc.1, rfl⟩
  next =>
    split
    next => exact Or.inl rfl
    next =>
      split
      next =>
        split
        next => exact Or.inl rfl
        next => exact Or.inl rfl
      next => exact Or.inl rfl

theorem entStep_holder (m : DocMetadata) (e : Ent) :
    (entStep m e).AccountHolder = m.AccountHolder ∨
      ((e.label = "PERSON".toList ∨ e.label = "ORG".toList) ∧
        (entStep m e).AccountHolder = e.text) := by
  unfold entStep
  split
  next => exact Or.inl rfl
  next =>
    split
    next hc => exact Or.inr ⟨hc.1, rfl⟩
    next =>
      split
      next =>
        split
        next => exact Or.inl rfl
        next => exact Or.inl rfl
      next => exact Or.inl rfl

theorem entStep_acct (m : DocMetadata) (e : Ent) :
    (entStep m e).AccountNumber = m.AccountNumber ∨
      (e.label = "CARDINAL".toList ∧ 8 ≤ e.text.length ∧
        (entStep m e).AccountNumber = e.text) := by
  unfold entStep
  split
  next => exact Or.inl rfl
  next =>
    split
    next => exact Or.inl rfl
    next =>
      split
      next hc =>
        split
        next hlen => exact Or.inr ⟨hc.1, hlen, rfl⟩
        next => exact Or.inl rfl
      next => exact Or.inl rfl

theorem entStep_ifsc (m : DocMetadata) (e : Ent) :
    (entStep m e).IFSCCode = m.IFSCCode := by
  unfold entStep
  repeat' split
  all_goals rfl

theorem entStep_from (m : DocMetadata) (e : Ent) :
    (entStep m e).TransactionFrom = m.TransactionFrom := by
  unfold entStep
  repeat' split
  all_goals rfl

theorem entStep_to (m : DocMetadata) (e : Ent) :
    (entStep m e).TransactionTo = m.TransactionTo := by
  unfold entStep
  repeat' split
  all_goals rfl

theorem entStep_bal (m : DocMetadata) (e : Ent) :
    (entStep m e).ClearedBalance = m.ClearedBalance := by
  unfold entStep
  repeat' split
  all_goals rfl

theorem foldl_entStep_preserves (g : DocMetadata → Str)
    (hg : ∀ m e, g (entStep m e) = g m) :
    ∀ (ents : List Ent) (m : DocMetadata),
      g (List.foldl entStep m ents) = g m := by
  intro ents
  induction ents with
  | nil => intro m; rfl
  | cons e es ih => intro m; rw [List.foldl_cons, ih, hg]

theorem foldl_entStep_bank :
    ∀ (ents : List Ent) (m : DocMetadata),
      (List.foldl entStep m ents).BankName = m.BankName ∨
        ∃ e ∈ ents, e.label = "ORG".toList ∧
          (List.foldl entStep m ents).BankName = e.text := by
  intro ents
  induction ents with
  | nil => intro m; exact Or.inl rfl
  | cons e es ih =>
    intro m
    rw [List.foldl_cons]
    rcases ih (entStep m e) with h | ⟨e2, he2, hl, ht⟩
    · rcases entStep_bank m e with h2 | ⟨hl, h2⟩
      · exact Or.inl (h.trans h2)
      · exact Or.inr ⟨e, List.mem_cons_self _ _, hl, h.trans h2⟩
    · exact Or.inr ⟨e2, List.mem_cons_of_mem _ he2, hl, ht⟩

theorem foldl_entStep_holder :
    ∀ (ents : List Ent) (m : DocMetadata),
      (List.foldl entStep m ents).AccountHolder = m.AccountHolder ∨
        ∃ e ∈ ents, (e.label = "PERSON".toList ∨ e.label = "ORG".toList) ∧
          (List.foldl entStep m ents).AccountHolder = e.text := by
  intro ents
  induction ents with
  | nil => intro m; exact Or.inl rfl
  | cons e es ih =>
    intro m
    rw [List.foldl_cons]
    rcases ih (entStep m e) with h | ⟨e2, he2, hl, ht⟩
    · rcases entStep_holder m e with h2 | ⟨hl, h2⟩
      · exact Or.inl (h.trans h2)
      · exact Or.inr ⟨e, List.mem_cons_self _ _, hl, h.trans h2⟩
    · exact Or.inr ⟨e2, List.mem_cons_of_mem _ he2, hl, ht⟩

theorem foldl_entStep_acct :
    ∀ (ents : List Ent) (m : DocMetadata),
      (List.foldl entStep m ents).AccountNumber = m.AccountNumber ∨
        ∃ e ∈ ents, e.label = "CARDINAL".toList ∧ 8 ≤ e.text.length ∧
          (List.foldl entStep m ents).AccountNumber = e.text := by
  intro ents
  induction ents with
  | nil => intro m; exact Or.inl rfl
  | cons e es ih =>
    intro m
    rw [List.foldl_cons]
    rcases ih (entStep m e) with h | ⟨e2, he2, hl, hlen, ht⟩
    · rcases entStep_acct m e with h2 | ⟨hl, hlen, h2⟩
      · exact Or.inl (h.trans h2)
      · exact Or.inr ⟨e, List.mem_cons_self _ _, hl, hlen, h.trans h2⟩
    · exact Or.inr ⟨e2, List.mem_cons_of_mem _ he2, hl, hlen, ht⟩

theorem applyIFSC_bank (text : Str) (m : DocMetadata) :
    (applyIFSC text m).BankName = m.BankName := by
  unfold applyIFSC; cases detect_ifsc_code text <;> rfl

theorem applyIFSC_holder (text : Str) (m : DocMetadata) :
    (applyIFSC text m).AccountHolder = m.AccountHolder := by
  unfold applyIFSC; cases detect_ifsc_code text <;> rfl

theorem applyIFSC_acct (text : Str) (m : DocMetadata) :
    (applyIFSC text m).AccountNumber = m.AccountNumber := by
  unfold applyIFSC; cases detect_ifsc_code text <;> rfl

theorem applyIFSC_from (text : Str) (m : DocMetadata) :
    (applyIFSC text m).TransactionFrom = m.TransactionFrom := by
  unfold applyIFSC; cases detect_ifsc_code text <;> rfl

theorem applyIFSC_to (text : Str) (m : DocMetadata) :
    (applyIFSC text m).TransactionTo = m.TransactionTo := by
  unfold applyIFSC; cases detect_ifsc_code text <;> rfl

theorem applyIFSC_bal (text : Str) (m : DocMetadata) :
    (applyIFSC text m).ClearedBalance = m.ClearedBalance := by
  unfold applyIFSC; cases detect_ifsc_code text <;> rfl

theorem applyDates_bank (oracle : DateOracle) (dF : List Str)
    (dP : List (Str × Str)) (m : DocMetadata) :
    (applyDates oracle dF dP m).BankName = m.BankName := by
  unfold applyDates
  cases dF with
  | cons a l => rfl
  | nil =>
    cases dP with
    | nil => rfl
    | cons p l => obtain ⟨a, b⟩ := p; rfl

theorem applyDates_holder (oracle : DateOracle) (dF : List Str)
    (dP : List (Str × Str)) (m : DocMetadata) :
    (applyDates oracle dF dP m).AccountHolder = m.AccountHolder := by
  unfold applyDates
  cases dF with
  | cons a l => rfl
  | nil =>
    cases dP with
    | nil => rfl
    | cons p l => obtain ⟨a, b⟩ := p; rfl

theorem applyDates_acct (oracle : DateOracle) (dF : List Str)
    (dP : List (Str × Str)) (m : DocMetadata) :
    (applyDates oracle dF dP m).AccountNumber = m.AccountNumber := by
  unfold applyDates
  cases dF with
  | cons a l => rfl
  | nil =>
    cases dP with
    | nil => rfl
    | cons p l => obtain ⟨a, b⟩ := p; rfl

theorem applyDates_ifsc (oracle : DateOracle) (dF : List Str)
    (dP : List (Str × Str)) (m : DocMetadata) :
    (applyDates oracle dF dP m).IFSCCode = m.IFSCCode := by
  unfold applyDates
  cases dF with
  | cons a l => rfl
  | nil =>
    cases dP with
    | nil => rfl
    | cons p l => obtain ⟨a, b⟩ := p; rfl

theorem applyDates_bal (oracle : DateOracle) (dF : List Str)
    (dP : List (Str × Str)) (m : DocMetadata) :
    (applyDates oracle dF dP m).ClearedBalance = m.ClearedBalance := by
  unfold applyDates
  cases dF with
  | cons a l => rfl
  | nil =>
    cases dP with
    | nil => rfl
    | cons p l => obtain ⟨a, b⟩ := p; rfl

theorem applyBalance_bank (b1 b2 b3 : Option Str) (m : DocMetadata) :
    (applyBalance b1 b2 b3 m).BankName = m.BankName := by
  unfold applyBalance; cases b1 <;> cases b2 <;> cases b3 <;> rfl

theorem applyBalance_holder (b1 b2 b3 : Option Str) (m : DocMetadata) :
    (applyBalance b1 b2 b3 m).AccountHolder = m.AccountHolder := by
  unfold applyBalance; cases b1 <;> cases b2 <;> cases b3 <;> rfl

theorem applyBalance_acct (b1 b2 b3 : Option Str) (m : DocMetadata) :
    (applyBalance b1 b2 b3 m).AccountNumber = m.AccountNumber := by
  unfold applyBalance; cases b1 <;> cases b2 <;> cases b3 <;> rfl

theorem applyBalance_ifsc (b1 b2 b3 : Option Str) (m : DocMetadata) :
    (applyBalance b1 b2 b3 m).IFSCCode = m.IFSCCode := by
  unfold applyBalance; cases b1 <;> cases b2 <;> cases b3 <;> rfl

theorem applyBalance_from (b1 b2 b3 : Option Str) (m : DocMetadata) :
    (applyBalance b1 b2 b3 m).TransactionFrom = m.TransactionFrom := by
  unfold applyBalance; cases b1 <;> cases b2 <;> cases b3 <;> rfl

theorem applyBalance_to (b1 b2 b3 : Option Str) (m : DocMetadata) :
    (applyBalance b1 b2 b3 m).TransactionTo = m.TransactionTo := by
  unfold applyBalance; cases b1 <;> cases b2 <;> cases b3 <;> rfl

theorem parse_date_canonical {oracle : DateOracle} {s r : Str}
    (h : parse_date oracle s = some r) : isCanonicalDate r = true := by
  unfold parse_date at h
  cases ho : oracle s with
  | none => rw [ho] at h; simp at h
  | some v =>
    rw [ho] at h
    simp only [Option.map_some'] at h
    injection h with h
    rw [← h]
    exact isCanonicalDate_fmtPD v.1 v.2

/-- Claim C6: for every input (entities, text, pattern-match results,
including none at all), the metadata extractor returns a record in which
every field holds either a detected value (a matching entity text, the
IFSC match, a canonically formatted date, a balance capture) or the
explicit sentinel Unknown Bank or NA; no field is ever absent. -/
theorem c6_metadata_total (oracle : DateOracle) (ents : List Ent)
    (text : Str) (dF : List Str) (dP : List (Str × Str))
    (b1 b2 b3 : Option Str) :
    ((extract_metadata oracle ents text dF dP b1 b2 b3).BankName
        = "Unknown Bank".toList ∨
      ∃ e ∈ ents, e.label = "ORG".toList ∧
        (extract_metadata oracle ents text dF dP b1 b2 b3).BankName
          = e.text) ∧
    ((extract_metadata oracle ents text dF dP b1 b2 b3).AccountHolder
        = "NA".toList ∨
      ∃ e ∈ ents, (e.label = "PERSON".toList ∨ e.label = "ORG".toList) ∧
        (extract_metadata oracle ents text dF dP b1 b2 b3).AccountHolder
          = e.text) ∧
    ((extract_metadata oracle ents text dF dP b1 b2 b3).AccountNumber
        = "NA".toList ∨
      ∃ e ∈ ents, e.label = "CARDINAL".toList ∧ 8 ≤ e.text.length ∧
        (extract_metadata oracle ents text dF dP b1 b2 b3).AccountNumber
          = e.text) ∧
    ((extract_metadata oracle ents text dF dP b1 b2 b3).IFSCCode
        = "NA".toList ∨
      ∃ code, detect_ifsc_code text = some code ∧
        (extract_metadata oracle ents text dF dP b1 b2 b3).IFSCCode
          = code) ∧
    ((extract_metadata oracle ents text dF dP b1 b2 b3).TransactionFrom
        = "NA".toList ∨
      isCanonicalDate
        (extract_metadata oracle ents text dF dP b1 b2 b3).TransactionFrom
          = true) ∧
    ((extract_metadata oracle ents text dF dP b1 b2 b3).TransactionTo
        = "NA".toList ∨
      isCanonicalDate
        (extract_metadata oracle ents text dF dP b1 b2 b3).TransactionTo
          = true) ∧
    ((extract_metadata oracle ents text dF dP b1 b2 b3).ClearedBalance
        = "NA".toList ∨
      b1 = some (extract_metadata oracle ents text dF dP b1 b2 b3).ClearedBalance ∨
      b2 = some (extract_metadata oracle ents text dF dP b1 b2 b3).ClearedBalance ∨
      b3 = some (extract_metadata oracle ents text dF dP b1 b2 b3).ClearedBalance) := by
  refine ⟨?_, ?_, ?_, ?_, ?_, ?_, ?_⟩
  · simp only [extract_metadata, applyBalance_bank, applyDates_bank,
      applyIFSC_bank]
    exact foldl_entStep_bank ents initMetadata
  · simp only [extract_metadata, applyBalance_holder, applyDates_holder,
      applyIFSC_holder]
    exact foldl_entStep_holder ents initMetadata
  · simp only [extract_metadata, applyBalance_acct, applyDates_acct,
      applyIFSC_acct]
    exact foldl_entStep_acct ents initMetadata
  · simp only [extract_metadata, applyBalance_ifsc, applyDates_ifsc]
    cases hd : detect_ifsc_code text with
    | some code =>
      simp only [applyIFSC, hd]
      exact Or.inr ⟨code, rfl, rfl⟩
    | none =>
      simp only [applyIFSC, hd]
      left
      rw [foldl_entStep_preserves (fun x => x.IFSCCode) entStep_ifsc]
      rfl
  · simp only [extract_metadata, applyBalance_from]
    cases dF with
    | cons a l =>
      simp only [applyDates]
      cases hp : parse_date oracle a with
      | none => left; rfl
      | some r => right; exact parse_date_canonical hp
    | nil =>
      cases dP with
      | nil =>
        simp only [applyDates]
        left
        rw [applyIFSC_from,
          foldl_entStep_preserves (fun x => x.TransactionFrom) entStep_from]
        rfl
      | cons p l =>
        obtain ⟨a, b⟩ := p
        simp only [applyDates]
        cases hp : parse_date oracle a with
        | none => left; rfl
        | some r => right; exact parse_date_canonical hp
  · simp only [extract_metadata, applyBalance_to]
    cases dF with
    | cons a l =>
      simp only [applyDates]
      cases hp : parse_date oracle a with
      | none => left; rfl
      | some r => right; exact parse_date_canonical hp
    | nil =>
      cases dP with
      | nil =>
        simp only [applyDates]
        left
        rw [applyIFSC_to,
          foldl_entStep_preserves (fun x => x.TransactionTo) entStep_to]
        rfl
      | cons p l =>
        obtain ⟨a, b⟩ := p
        simp only [applyDates]
        cases hp : parse_date oracle b with
        | none => left; rfl
        | some r => right; exact parse_date_canonical hp
  · simp only [extract_metadata]
    cases b1 with
    | some v =>
      simp only [applyBalance]
      exact Or.inr (Or.inl trivial)
    | none =>
      cases b2 with
      | some v =>
        simp only [applyBalance]
        exact Or.inr (Or.inr (Or.inl trivial))
      | none =>
        cases b3 with
        | some v =>
          simp only [applyBalance]
          exact Or.inr (Or.inr (Or.inr trivial))
        | none =>
          simp only [applyBalance]
          left
          rw [applyDates_bal, applyIFSC_bal,
            foldl_entStep_preserves (fun x => x.ClearedBalance) entStep_bal]
          rfl
